import Mathlib

/-!
Shallow embedding of the sandboxed MCP filesystem server
(`src/mcpserver/server/fs_server.py`).

Paths are absolute and represented as the list of their components below the
filesystem root `/`; the filesystem is a finite association list from such
paths to nodes.  Symlinks are not modelled: the embedding describes a
symlink-free directory tree, on which `Path.resolve()` coincides with the
lexical normalization `normComps` below.  Text encodings are abstracted to a
single notion of decodable text: a regular file holds either decodable text or
an undecodable binary blob of which only the byte size is tracked.
-/

namespace FsServer

/-- An absolute filesystem path: the list of its components below `/`. -/
abbrev AbsPath := List String

/-- A user-supplied path string as `pathlib` parses it: an absolute-or-relative
flag plus the list of raw components (which may include `.` and `..`). -/
structure PyPath where
  absolute : Bool
  comps : List String
deriving DecidableEq

/-- One step of lexical path normalization; the accumulator holds the already
normalized components in reverse order.  A `..` component drops the last
component (at the root it stays at the root, as `Path("/..").resolve()` does);
`.` and empty components disappear. -/
def normStep (acc : List String) (c : String) : List String :=
  if c = "" ∨ c = "." then acc
  else if c = ".." then acc.tail
  else c :: acc

/-- Lexical normalization of `.`/`..` segments: what `Path.resolve()` computes
on a symlink-free tree. -/
def normComps (cs : List String) : List String := (cs.foldl normStep []).reverse

/-- Rendering of an absolute path the way `str(Path(...))` renders it. -/
def pathStr (cs : AbsPath) : String :=
  if cs.isEmpty then "/" else cs.foldl (fun a c => a ++ "/" ++ c) ""

/-- Python `str.startswith`. -/
def strStartsWith (pre s : String) : Bool := pre.data.isPrefixOf s.data

/-- The canonical absolute target `_resolve_safe` computes before its check:
`(base / path).resolve()` for a relative input, `Path(path).resolve()` for an
absolute one. -/
def canonTarget (base : AbsPath) (p : PyPath) : AbsPath :=
  if p.absolute then normComps p.comps else normComps (base ++ p.comps)

/-- `_resolve_safe`: resolve the user path against the root `base` (itself
already canonical, as `_get_fs_root` returns `Path(root).resolve()`) and
reject the result when its string form does not start with the string form of
the root, raising `ValueError("Path escapes FS_ROOT: ...")`. -/
def resolve_safe (base : AbsPath) (p : PyPath) : Except String AbsPath :=
  if strStartsWith (pathStr base) (pathStr (canonTarget base p)) then
    Except.ok (canonTarget base p)
  else
    Except.error ("Path escapes FS_ROOT: " ++ pathStr (canonTarget base p))

/-- Containment in the tree rooted at `base`: `base` is a component-wise
prefix of `t`, i.e. `t` equals `base` or lies below it. -/
def isWithin (base t : AbsPath) : Prop := base <+: t

instance (base t : AbsPath) : Decidable (isWithin base t) := by
  unfold isWithin; infer_instance

/-- The content of a regular file: decodable text, or an undecodable binary
blob of which only the byte size is tracked. -/
inductive FileData where
  | txt (s : String)
  | blob (size : Nat)
deriving DecidableEq

/-- A filesystem node. -/
inductive Node where
  | file (d : FileData)
  | dir
deriving DecidableEq

/-- A directory tree: a finite association list from absolute paths to nodes
(the first binding for a path wins).  A real tree lists every path at most
once and contains every ancestor of each of its paths; `FSwf` below states
that invariant where a proof needs it. -/
abbrev FS := List (AbsPath × Node)

/-- Look up the node stored at `p`. -/
def fsFind (fs : FS) (p : AbsPath) : Option Node :=
  (fs.find? (fun e => decide (e.1 = p))).map Prod.snd

/-- `Path.exists()`. -/
def fsMem (fs : FS) (p : AbsPath) : Bool := (fsFind fs p).isSome

def Node.isFile : Node → Bool
  | Node.file _ => true
  | Node.dir => false

def Node.isDir : Node → Bool
  | Node.file _ => false
  | Node.dir => true

/-- `Path.is_file()`. -/
def fsIsFile (fs : FS) (p : AbsPath) : Bool :=
  match fsFind fs p with
  | some n => n.isFile
  | none => false

/-- `Path.is_dir()`. -/
def fsIsDir (fs : FS) (p : AbsPath) : Bool :=
  match fsFind fs p with
  | some n => n.isDir
  | none => false

/-- Store node `n` at `p`, replacing any previous binding. -/
def fsInsert (fs : FS) (p : AbsPath) (n : Node) : FS :=
  (p, n) :: fs.filter (fun e => !decide (e.1 = p))

/-- Remove the binding at `p` (`Path.unlink` / `Path.rmdir`). -/
def fsErase (fs : FS) (p : AbsPath) : FS :=
  fs.filter (fun e => !decide (e.1 = p))

/-- Remove `p` together with everything below it (`shutil.rmtree`). -/
def fsEraseTree (fs : FS) (p : AbsPath) : FS :=
  fs.filter (fun e => !decide (p <+: e.1))

/-- The distinct paths present in the tree. -/
def fsKeys (fs : FS) : List AbsPath := (fs.map Prod.fst).dedup

/-- `q` lies strictly below `r`, i.e. `r.rglob("*")` yields it. -/
def strictlyUnder (r q : AbsPath) : Bool := decide (r <+: q) && !decide (q = r)

/-- The paths `root.rglob("*")` yields. -/
def rglobAll (fs : FS) (r : AbsPath) : List AbsPath :=
  (fsKeys fs).filter (fun q => strictlyUnder r q)

/-- Whether a directory has at least one entry below it. -/
def hasDescendant (fs : FS) (p : AbsPath) : Bool :=
  (fsKeys fs).any (fun q => strictlyUnder p q)

/-- The proper ancestors of `p`, outermost first (`[]` is the root `/`). -/
def properPrefixes (p : AbsPath) : List AbsPath :=
  (List.range p.length).map (fun i => p.take i)

/-- Create the listed directories in order, skipping the ones that exist. -/
def createDirs (fs : FS) (l : List AbsPath) : FS :=
  l.foldl (fun acc q => if fsMem acc q then acc else fsInsert acc q Node.dir) fs

/-- `p.parent.mkdir(parents=True, exist_ok=True)`: fail (with
`NotADirectoryError`, state unchanged) if some ancestor of `p` is a regular
file, else create every missing ancestor directory of `p`. -/
def mkdirParents (fs : FS) (p : AbsPath) : Except String FS :=
  if (properPrefixes p).any (fun q => fsIsFile fs q) then
    Except.error ("Not a directory: " ++ pathStr p)
  else
    Except.ok (createDirs fs (properPrefixes p))

/-- `stat().st_size`: the byte size of a regular file; directory sizes are
filesystem-dependent and abstracted to 0. -/
def nodeSize : Node → Nat
  | Node.file (FileData.txt s) => s.utf8ByteSize
  | Node.file (FileData.blob n) => n
  | Node.dir => 0

/-- `Path.name`: the final component. -/
def lastName (q : AbsPath) : String := (q.getLast?).getD ""

/-- One listing entry, as `_format_entry` builds it. -/
structure Entry where
  path : String
  name : String
  is_dir : Bool
  size : Option Nat
deriving DecidableEq

/-- `_format_entry` (the `stat` call never fails in the model, so `size` is
always present for a path that exists). -/
def format_entry (fs : FS) (q : AbsPath) : Entry :=
  ⟨pathStr q, lastName q, fsIsDir fs q, (fsFind fs q).map nodeSize⟩

/-- `some c` precisely when `q` is the immediate child `p / c`. -/
def childOf (p q : AbsPath) : Option String :=
  if q.dropLast = p then q.getLast? else none

/-- The names of the immediate children of `p`, each exactly once. -/
def childNames (fs : FS) (p : AbsPath) : List String :=
  (fsKeys fs).filterMap (childOf p)

/-- Codepoint-lexicographic comparison of character lists: how Python compares
the path strings that `sorted(directory.iterdir())` orders. -/
def lexLe : List Char → List Char → Bool
  | [], _ => true
  | _ :: _, [] => false
  | a :: as, b :: bs =>
    if a.toNat < b.toNat then true
    else if a.toNat = b.toNat then lexLe as bs
    else false

/-- Python string `<=` (for sibling paths, ordering by full path string is the
same as ordering by name). -/
def strLe (a b : String) : Prop := lexLe a.data b.data = true

instance : DecidableRel strLe := fun a b => by unfold strLe; infer_instance

/-- `sorted(...)` on the names of the children of one directory. -/
def sortNames (l : List String) : List String := List.insertionSort strLe l

/-- `list_directory`: list the entries of a directory under the root. -/
def list_directory (root : AbsPath) (fs : FS) (path : PyPath) :
    Except String (List Entry) :=
  match resolve_safe root path with
  | Except.error e => Except.error e
  | Except.ok d =>
    if !fsMem fs d || !fsIsDir fs d then
      Except.error ("Not a directory: " ++ pathStr d)
    else
      Except.ok ((sortNames (childNames fs d)).map (fun c => format_entry fs (d ++ [c])))

/-- Decoding a file under the (abstracted) text encoding: `read_text`. -/
def readData : FileData → Except String String
  | FileData.txt s => Except.ok s
  | FileData.blob _ => Except.error "UnicodeDecodeError"

/-- `read_file`. -/
def read_file (root : AbsPath) (fs : FS) (path : PyPath) : Except String String :=
  match resolve_safe root path with
  | Except.error e => Except.error e
  | Except.ok fp =>
    if !fsMem fs fp || !fsIsFile fs fp then
      Except.error ("File not found: " ++ pathStr fp)
    else
      match fsFind fs fp with
      | some (Node.file d) => readData d
      | _ => Except.error ("File not found: " ++ pathStr fp)

/-- Appending `content` to existing file data in text mode (appending to a
binary file keeps it binary and grows its size by the encoded size). -/
def appendData (d : FileData) (content : String) : FileData :=
  match d with
  | FileData.txt s => FileData.txt (s ++ content)
  | FileData.blob n => FileData.blob (n + content.utf8ByteSize)

/-- `write_file`.  Returns the final filesystem together with the confirmation
string or the raised error; side effects performed before a raised error
persist, as they do in Python. -/
def write_file (root : AbsPath) (fs : FS) (path : PyPath) (content : String) :
    FS × Except String String :=
  match resolve_safe root path with
  | Except.error e => (fs, Except.error e)
  | Except.ok fp =>
    match mkdirParents fs fp with
    | Except.error e => (fs, Except.error e)
    | Except.ok fs1 =>
      if fsMem fs1 fp && !fsIsFile fs1 fp then
        (fs1, Except.error ("Target exists and is not a file: " ++ pathStr fp))
      else
        let appendMode := fsMem fs1 fp
        let newData :=
          match fsFind fs1 fp with
          | some (Node.file d) => appendData d content
          | _ => FileData.txt content
        let action := if appendMode then "Appended" else "Created"
        (fsInsert fs1 fp (Node.file newData),
         Except.ok (action ++ " file at " ++ pathStr fp
           ++ " | Characters written: " ++ toString content.length
           ++ " | Bytes written: " ++ toString content.utf8ByteSize))

/-- Python `needle in hay` on strings: literal substring containment. -/
def containsSub (needle hay : String) : Bool := decide (needle.data <:+: hay.data)

/-- ASCII lowering of one character (`str.lower`, restricted to the ASCII range
our inputs use). -/
def pyLower (c : Char) : Char :=
  if 65 ≤ c.toNat ∧ c.toNat ≤ 90 then Char.ofNat (c.toNat + 32) else c

/-- `str.lower()`. -/
def lowerStr (s : String) : String := ⟨s.data.map pyLower⟩

/-- The hits of `search_files`: regular files strictly below `r` whose lowered
base name contains the lowered needle. -/
def searchHits (fs : FS) (r : AbsPath) (needle : String) : List AbsPath :=
  (rglobAll fs r).filter
    (fun q => fsIsFile fs q && containsSub needle (lowerStr (lastName q)))

/-- `search_files`: find files by name substring within a directory tree. -/
def search_files (root : AbsPath) (fs : FS) (path : PyPath)
    (name_contains : Option String) : Except String (List String) :=
  match resolve_safe root path with
  | Except.error e => Except.error e
  | Except.ok r =>
    if !fsMem fs r || !fsIsDir fs r then
      Except.error ("Not a directory: " ++ pathStr r)
    else
      Except.ok ((searchHits fs r (lowerStr (name_contains.getD ""))).map pathStr)

/-- The hits of `search_in_files`: regular files strictly below `r` that
decode under the requested encoding and contain `text`; files that fail to
decode are skipped silently. -/
def searchInHits (fs : FS) (r : AbsPath) (text : String) : List AbsPath :=
  (rglobAll fs r).filter (fun q =>
    match fsFind fs q with
    | some (Node.file (FileData.txt s)) => containsSub text s
    | _ => false)

/-- `search_in_files` (the result models the list of `{"path": ...}` records
by the list of their path strings). -/
def search_in_files (root : AbsPath) (fs : FS) (path : PyPath) (text : String) :
    Except String (List String) :=
  match resolve_safe root path with
  | Except.error e => Except.error e
  | Except.ok r =>
    if !fsMem fs r || !fsIsDir fs r then
      Except.error ("Not a directory: " ++ pathStr r)
    else if text = "" then
      Except.ok []
    else
      Except.ok ((searchInHits fs r text).map pathStr)

/-- The record `get_file_info` returns: an entry plus `exists=True`. -/
structure FileInfo where
  entry : Entry
  exists_ : Bool
deriving DecidableEq

/-- `get_file_info`. -/
def get_file_info (root : AbsPath) (fs : FS) (path : PyPath) :
    Except String FileInfo :=
  match resolve_safe root path with
  | Except.error e => Except.error e
  | Except.ok p =>
    if !fsMem fs p then Except.error ("Not found: " ++ pathStr p)
    else Except.ok ⟨format_entry fs p, true⟩

/-- `create_directory`: `p.mkdir(parents=True, exist_ok=exist_ok)`. -/
def create_directory (root : AbsPath) (fs : FS) (path : PyPath) (exist_ok : Bool) :
    FS × Except String String :=
  match resolve_safe root path with
  | Except.error e => (fs, Except.error e)
  | Except.ok p =>
    match mkdirParents fs p with
    | Except.error e => (fs, Except.error e)
    | Except.ok fs1 =>
      match fsFind fs1 p with
      | some Node.dir =>
        if exist_ok then (fs1, Except.ok ("Created directory: " ++ pathStr p))
        else (fs1, Except.error ("File exists: " ++ pathStr p))
      | some (Node.file _) => (fs1, Except.error ("File exists: " ++ pathStr p))
      | none => (fsInsert fs1 p Node.dir, Except.ok ("Created directory: " ++ pathStr p))

/-- `delete_file`: delete a file or directory, with a recursive option. -/
def delete_file (root : AbsPath) (fs : FS) (path : PyPath) (recursive : Bool) :
    FS × Except String String :=
  match resolve_safe root path with
  | Except.error e => (fs, Except.error e)
  | Except.ok p =>
    if !fsMem fs p then (fs, Except.ok ("Already gone: " ++ pathStr p))
    else if fsIsDir fs p then
      if recursive then
        (fsEraseTree fs p, Except.ok ("Removed directory tree: " ++ pathStr p))
      else if hasDescendant fs p then
        (fs, Except.error ("Directory not empty: " ++ pathStr p))
      else
        (fsErase fs p, Except.ok ("Removed directory: " ++ pathStr p))
    else
      (fsErase fs p, Except.ok ("Removed file: " ++ pathStr p))

/-- `copy_file`, with `shutil.copy2` semantics at the destination: a
destination that is an existing directory receives the copy under the source's
base name; copying a path onto itself raises `SameFileError`; a directory
sitting at the final target raises `IsADirectoryError`; otherwise the target
receives the source's data (metadata is not modelled). -/
def copy_file (root : AbsPath) (fs : FS) (src dst : PyPath) (overwrite : Bool) :
    FS × Except String String :=
  match resolve_safe root src with
  | Except.error e => (fs, Except.error e)
  | Except.ok s =>
    match resolve_safe root dst with
    | Except.error e => (fs, Except.error e)
    | Except.ok d =>
      if !fsMem fs s || !fsIsFile fs s then
        (fs, Except.error ("Source file not found: " ++ pathStr s))
      else
        match mkdirParents fs d with
        | Except.error e => (fs, Except.error e)
        | Except.ok fs1 =>
          if fsMem fs1 d && !overwrite then
            (fs1, Except.error ("Destination exists: " ++ pathStr d))
          else
            let target := if fsIsDir fs1 d then d ++ [lastName s] else d
            if target = s then
              (fs1, Except.error ("SameFileError: " ++ pathStr s))
            else if fsIsDir fs1 target then
              (fs1, Except.error ("IsADirectoryError: " ++ pathStr target))
            else
              match fsFind fs1 s with
              | some (Node.file da) =>
                (fsInsert fs1 target (Node.file da),
                 Except.ok ("Copied " ++ pathStr s ++ " -> " ++ pathStr d))
              | _ => (fs1, Except.error ("Source file not found: " ++ pathStr s))

/-- Re-root every path below `s` at `t`. -/
def rekeyTree (fs : FS) (s t : AbsPath) : FS :=
  fs.map (fun e => if s <+: e.1 then (t ++ e.1.drop s.length, e.2) else e)

/-- `move_file`, with `shutil.move` semantics at the destination: a
destination that is an existing directory receives the source under its base
name; the subtree at the source is re-rooted at the final target, overwriting
a regular file sitting there. -/
def move_file (root : AbsPath) (fs : FS) (src dst : PyPath) (overwrite : Bool) :
    FS × Except String String :=
  match resolve_safe root src with
  | Except.error e => (fs, Except.error e)
  | Except.ok s =>
    match resolve_safe root dst with
    | Except.error e => (fs, Except.error e)
    | Except.ok d =>
      if !fsMem fs s then
        (fs, Except.error ("Source not found: " ++ pathStr s))
      else
        match mkdirParents fs d with
        | Except.error e => (fs, Except.error e)
        | Except.ok fs1 =>
          if fsMem fs1 d && !overwrite then
            (fs1, Except.error ("Destination exists: " ++ pathStr d))
          else
            let target := if fsIsDir fs1 d then d ++ [lastName s] else d
            if target = s then
              (fs1, Except.error ("SameFileError: " ++ pathStr s))
            else
              (rekeyTree (fsErase fs1 target) s target,
               Except.ok ("Moved " ++ pathStr s ++ " -> " ++ pathStr d))

/-- The argument mapping of an action descriptor: each known parameter is
either present or absent.  Path-valued arguments are carried already parsed as
`PyPath`. -/
structure Args where
  path : Option PyPath
  content : Option String
  src : Option PyPath
  dst : Option PyPath
  recursive : Option Bool
  overwrite : Option Bool
  name_contains : Option String
  text : Option String
  exist_ok : Option Bool

/-- The `TypeError` raised when a required keyword argument is missing from an
`op(**args)` call. -/
def missingArg (fn arg : String) : String :=
  fn ++ "() missing required argument: " ++ arg

/-- The default `path="."` of the listing and search tools. -/
def dotPath : PyPath := ⟨false, ["."]⟩

/-- The polymorphic raw result of one operation. -/
inductive OpResult where
  | entries (l : List Entry)
  | text (s : String)
  | msg (s : String)
  | paths (l : List String)
  | matches (l : List String)
  | info (i : FileInfo)

/-- The fixed operation catalog of the dispatcher. -/
def catalog : List String :=
  ["list_directory", "read_file", "write_file", "create_directory",
   "delete_file", "copy_file", "move_file", "search_files",
   "search_in_files", "get_file_info"]

/-- The `if/elif` action chain inside `nl_command`'s `try` block: `none` when
the action name is not in the catalog, otherwise the final filesystem plus the
raw result or the error the call raised (a missing required argument raises a
`TypeError` at call time, before the operation body runs). -/
def runAction (root : AbsPath) (fs : FS) (action : String) (args : Args) :
    Option (FS × Except String OpResult) :=
  if action = "list_directory" then
    some (fs, (list_directory root fs (args.path.getD dotPath)).map OpResult.entries)
  else if action = "read_file" then
    some (fs, match args.path with
      | none => Except.error (missingArg "read_file" "path")
      | some p => (read_file root fs p).map OpResult.text)
  else if action = "write_file" then
    some (match args.path, args.content with
      | some p, some c =>
        let r := write_file root fs p c
        (r.1, r.2.map OpResult.msg)
      | none, _ => (fs, Except.error (missingArg "write_file" "path"))
      | _, none => (fs, Except.error (missingArg "write_file" "content")))
  else if action = "create_directory" then
    some (match args.path with
      | none => (fs, Except.error (missingArg "create_directory" "path"))
      | some p =>
        let r := create_directory root fs p (args.exist_ok.getD true)
        (r.1, r.2.map OpResult.msg))
  else if action = "delete_file" then
    some (match args.path with
      | none => (fs, Except.error (missingArg "delete_file" "path"))
      | some p =>
        let r := delete_file root fs p (args.recursive.getD false)
        (r.1, r.2.map OpResult.msg))
  else if action = "copy_file" then
    some (match args.src, args.dst with
      | some s, some d =>
        let r := copy_file root fs s d (args.overwrite.getD true)
        (r.1, r.2.map OpResult.msg)
      | none, _ => (fs, Except.error (missingArg "copy_file" "src"))
      | _, none => (fs, Except.error (missingArg "copy_file" "dst")))
  else if action = "move_file" then
    some (match args.src, args.dst with
      | some s, some d =>
        let r := move_file root fs s d (args.overwrite.getD true)
        (r.1, r.2.map OpResult.msg)
      | none, _ => (fs, Except.error (missingArg "move_file" "src"))
      | _, none => (fs, Except.error (missingArg "move_file" "dst")))
  else if action = "search_files" then
    some (fs, (search_files root fs (args.path.getD dotPath) args.name_contains).map
      OpResult.paths)
  else if action = "search_in_files" then
    some (fs, (search_in_files root fs (args.path.getD dotPath)
      (args.text.getD "")).map OpResult.matches)
  else if action = "get_file_info" then
    some (fs, match args.path with
      | none => Except.error (missingArg "get_file_info" "path")
      | some p => (get_file_info root fs p).map OpResult.info)
  else
    none

/-- Rendering of a user path argument back to the string form the summarizer
interpolates. -/
def PyPath.render (p : PyPath) : String :=
  if p.absolute then pathStr p.comps else String.intercalate "/" p.comps

/-- The `" (and N more)"` suffix for truncated listings. -/
def moreSuffix (count : Nat) : String :=
  if count ≤ 10 then "" else " (and " ++ toString (count - 10) ++ " more)"

/-- `Path(s).name` on a rendered path string. -/
def strBasename (s : String) : String := ((s.splitOn "/").getLast?).getD s

/-- The `read_file` summary line: first 200 characters, newlines blanked, with
a trailing ellipsis when the content is longer. -/
def previewText (r : String) : String :=
  "Read file successfully. First 200 chars: "
    ++ String.mk ((r.data.take 200).map (fun c => if c = '\n' then ' ' else c))
    ++ (if 200 < r.length then "…" else "")

/-- The per-operation result summarization of `nl_command`. -/
def summarize (args : Args) (r : OpResult) : String :=
  match r with
  | OpResult.entries l =>
    let folder := match args.path with
      | some p => p.render
      | none => "."
    let names := String.intercalate ", "
      ((l.take 10).map (fun e => if e.name = "" then "?" else e.name))
    "Found " ++ toString l.length ++ " item(s) in " ++ folder ++ ": "
      ++ names ++ moreSuffix l.length ++ "."
  | OpResult.paths l =>
    let needle := (args.name_contains).getD ""
    let names := String.intercalate ", " ((l.take 10).map strBasename)
    "Found " ++ toString l.length ++ " file(s) matching \x27" ++ needle ++ "\x27: "
      ++ names ++ moreSuffix l.length ++ "."
  | OpResult.matches l =>
    let textq := (args.text).getD ""
    let names := String.intercalate ", " ((l.take 10).map strBasename)
    "Found \x27" ++ textq ++ "\x27 in " ++ toString l.length ++ " file(s): "
      ++ names ++ moreSuffix l.length ++ "."
  | OpResult.info i =>
    let kind := if i.entry.is_dir then "folder" else "file"
    let sizeStr := match i.entry.size with
      | some n => toString n
      | none => "None"
    i.entry.name ++ " is a " ++ kind ++ " (size: " ++ sizeStr ++ " bytes)."
  | OpResult.text s => previewText s
  | OpResult.msg s => s

/-- The dispatch-and-summarize core of `nl_command` (the language-model call
and the JSON extraction upstream of the action descriptor are outside the
model): run the `if/elif` chain inside the `try`, summarize a successful raw
result, catch any raised error as an `"Execution error: ..."` message, and
answer `"Unsupported action: ..."` for a name outside the catalog. -/
def nl_command (root : AbsPath) (fs : FS) (action : String) (args : Args) :
    FS × String :=
  match runAction root fs action args with
  | none => (fs, "Unsupported action: " ++ action)
  | some (fs1, Except.error e) => (fs1, "Execution error: " ++ e)
  | some (fs1, Except.ok r) => (fs1, summarize args r)

/-- Well-formedness of a tree: every proper ancestor of a present path is
itself present as a directory (true of every reachable state of a real
filesystem). -/
def FSwf (fs : FS) : Prop :=
  ∀ e ∈ fs, ∀ i, i < e.1.length → fsIsDir fs (e.1.take i) = true

/-- Executable form of `FSwf`. -/
def FSwfB (fs : FS) : Bool :=
  fs.all (fun e => (List.range e.1.length).all (fun i => fsIsDir fs (e.1.take i)))

/-- A sample root used by the concrete witnesses. -/
def rootC : AbsPath := ["r"]

/-- A sample tree holding only the root directory. -/
def fsEmptyC : FS := [([], Node.dir), (["r"], Node.dir)]

/-- A sample tree with files, a binary blob and a subdirectory. -/
def fsTreeC : FS :=
  [([], Node.dir), (["r"], Node.dir),
   (["r", "report1.txt"], Node.file (FileData.txt "alpha")),
   (["r", "REPORT_final.csv"], Node.file (FileData.txt "beta")),
   (["r", "notes.md"], Node.file (FileData.txt "see alpha")),
   (["r", "bin.dat"], Node.file (FileData.blob 4)),
   (["r", "sub"], Node.dir),
   (["r", "sub", "a.txt"], Node.file (FileData.txt "alpha beta"))]

/-- A sample tree whose root directory holds one subdirectory `d`. -/
def fsDirC : FS := [([], Node.dir), (["r"], Node.dir), (["r", "d"], Node.dir)]

/-- An action-descriptor argument mapping with every argument absent. -/
def noArgs : Args := ⟨none, none, none, none, none, none, none, none, none⟩

end FsServer

namespace FsServer

theorem fsFind_filter_eq (fs : FS) (g : AbsPath → Bool) (q : AbsPath)
    (hq : g q = true) :
    fsFind (fs.filter (fun e => g e.1)) q = fsFind fs q := by
  induction fs with
  | nil => rfl
  | cons e fs ih =>
    by_cases he : e.1 = q
    · simp [fsFind, List.filter_cons, he, hq, List.find?]
    · simp only [fsFind, List.filter_cons] at *
      by_cases hg : g e.1
      · simp only [hg, if_true, List.find?, decide_eq_true_eq, he, ite_false]
        exact ih
      · simp only [hg, Bool.false_eq_true, if_false, List.find?,
          decide_eq_true_eq, he, ite_false]
        exact ih

theorem fsFind_filter_none (fs : FS) (g : AbsPath → Bool) (q : AbsPath)
    (hq : g q = false) :
    fsFind (fs.filter (fun e => g e.1)) q = none := by
  induction fs with
  | nil => rfl
  | cons e fs ih =>
    by_cases he : e.1 = q
    · simp only [List.filter_cons, he, hq, Bool.false_eq_true, if_false]
      exact ih
    · simp only [List.filter_cons]
      by_cases hg : g e.1
      · simp only [hg, if_true, fsFind, List.find?, decide_eq_true_eq, he, ite_false]
        exact ih
      · simp only [hg, Bool.false_eq_true, if_false]
        exact ih

theorem fsFind_fsInsert_self (fs : FS) (p : AbsPath) (n : Node) :
    fsFind (fsInsert fs p n) p = some n := by
  simp [fsFind, fsInsert, List.find?]

theorem fsFind_fsInsert_ne (fs : FS) (p q : AbsPath) (n : Node) (h : q ≠ p) :
    fsFind (fsInsert fs p n) q = fsFind fs q := by
  have h2 : ¬(p = q) := fun hc => h hc.symm
  have hrest : fsFind (fs.filter (fun e => !decide (e.1 = p))) q = fsFind fs q :=
    fsFind_filter_eq fs (fun k => !decide (k = p)) q (by simp [h])
  simpa [fsFind, fsInsert, List.find?, h2] using hrest

theorem fsFind_fsErase_self (fs : FS) (p : AbsPath) :
    fsFind (fsErase fs p) p = none :=
  fsFind_filter_none fs (fun k => !decide (k = p)) p (by simp)

theorem fsFind_fsErase_ne (fs : FS) (p q : AbsPath) (h : q ≠ p) :
    fsFind (fsErase fs p) q = fsFind fs q :=
  fsFind_filter_eq fs (fun k => !decide (k = p)) q (by simp [h])

theorem fsFind_fsEraseTree_under (fs : FS) (p q : AbsPath) (h : p <+: q) :
    fsFind (fsEraseTree fs p) q = none :=
  fsFind_filter_none fs (fun k => !decide (p <+: k)) q (by simp [h])

theorem fsMem_eq_true_iff (fs : FS) (q : AbsPath) :
    fsMem fs q = true ↔ ∃ e ∈ fs, e.1 = q := by
  unfold fsMem fsFind
  constructor
  · intro h
    cases hf : fs.find? (fun e => decide (e.1 = q)) with
    | none => rw [hf] at h; simp at h
    | some e =>
      have hm := List.mem_of_find?_eq_some hf
      have hp := List.find?_some hf
      exact ⟨e, hm, by simpa using hp⟩
  · rintro ⟨e, he, rfl⟩
    cases hf : fs.find? (fun x => decide (x.1 = e.1)) with
    | none =>
      have := List.find?_eq_none.mp hf e he
      simp at this
    | some x => simp [hf]

theorem fsMem_of_find (fs : FS) (p : AbsPath) (n : Node)
    (h : fsFind fs p = some n) : fsMem fs p = true := by
  simp [fsMem, h]

theorem fsIsDir_eq_true_iff (fs : FS) (p : AbsPath) :
    fsIsDir fs p = true ↔ fsFind fs p = some Node.dir := by
  unfold fsIsDir
  cases h : fsFind fs p with
  | none => simp
  | some n => cases n <;> simp [Node.isDir]

theorem fsIsFile_eq_true_iff (fs : FS) (p : AbsPath) :
    fsIsFile fs p = true ↔ ∃ d, fsFind fs p = some (Node.file d) := by
  unfold fsIsFile
  cases h : fsFind fs p with
  | none => simp
  | some n => cases n <;> simp [Node.isFile]

theorem fsIsFile_eq_false_of_isDir (fs : FS) (p : AbsPath)
    (h : fsIsDir fs p = true) : fsIsFile fs p = false := by
  rw [fsIsDir_eq_true_iff] at h
  simp [fsIsFile, h, Node.isFile]

theorem fsMem_of_isDir (fs : FS) (p : AbsPath) (h : fsIsDir fs p = true) :
    fsMem fs p = true :=
  fsMem_of_find fs p Node.dir ((fsIsDir_eq_true_iff fs p).mp h)

theorem fsMem_of_isFile (fs : FS) (p : AbsPath) (h : fsIsFile fs p = true) :
    fsMem fs p = true := by
  obtain ⟨d, hd⟩ := (fsIsFile_eq_true_iff fs p).mp h
  exact fsMem_of_find fs p _ hd

theorem mem_fsKeys (fs : FS) (q : AbsPath) :
    q ∈ fsKeys fs ↔ fsMem fs q = true := by
  rw [fsMem_eq_true_iff]
  unfold fsKeys
  rw [List.mem_dedup, List.mem_map]

theorem fsKeys_nodup (fs : FS) : (fsKeys fs).Nodup := List.nodup_dedup _

theorem childOf_eq_some (p q : AbsPath) (c : String) :
    childOf p q = some c ↔ q = p ++ [c] := by
  rcases List.eq_nil_or_concat q with rfl | ⟨l, a, rfl⟩
  · constructor
    · intro h; exact absurd h (by simp [childOf])
    · intro h; exact absurd h (by simp)
  · simp only [childOf, List.concat_eq_append, List.getLast?_concat,
      List.dropLast_concat]
    by_cases hd : l = p
    · subst hd; simp
    · rw [if_neg hd]
      constructor
      · intro h; exact absurd h (by simp)
      · intro h
        exact absurd (List.append_inj' h rfl).1 hd

theorem mem_childNames (fs : FS) (p : AbsPath) (c : String) :
    c ∈ childNames fs p ↔ fsMem fs (p ++ [c]) = true := by
  unfold childNames
  rw [List.mem_filterMap]
  constructor
  · rintro ⟨q, hq, hfq⟩
    rw [childOf_eq_some] at hfq
    subst hfq
    exact (mem_fsKeys fs _).mp hq
  · intro h
    exact ⟨p ++ [c], (mem_fsKeys fs _).mpr h, (childOf_eq_some p _ c).mpr rfl⟩

theorem childNames_nodup (fs : FS) (p : AbsPath) : (childNames fs p).Nodup := by
  unfold childNames
  refine List.Nodup.filterMap ?_ (fsKeys_nodup fs)
  intro a a' b hb hb'
  rw [Option.mem_def, childOf_eq_some] at hb hb'
  rw [hb, hb']

theorem mem_properPrefixes (p q : AbsPath) :
    q ∈ properPrefixes p ↔ ∃ i, i < p.length ∧ q = p.take i := by
  unfold properPrefixes
  rw [List.mem_map]
  constructor
  · rintro ⟨i, hi, rfl⟩; exact ⟨i, List.mem_range.mp hi, rfl⟩
  · rintro ⟨i, hi, rfl⟩; exact ⟨i, List.mem_range.mpr hi, rfl⟩

theorem length_lt_of_mem_properPrefixes (p q : AbsPath)
    (h : q ∈ properPrefixes p) : q.length < p.length := by
  obtain ⟨i, hi, rfl⟩ := (mem_properPrefixes p q).mp h
  rw [List.length_take]
  omega

theorem self_not_mem_properPrefixes (p : AbsPath) : p ∉ properPrefixes p := by
  intro h
  exact absurd (length_lt_of_mem_properPrefixes p p h) (lt_irrefl _)

theorem fsFind_createDirs_of_not_mem (fs : FS) (l : List AbsPath) (q : AbsPath)
    (h : q ∉ l) : fsFind (createDirs fs l) q = fsFind fs q := by
  induction l generalizing fs with
  | nil => rfl
  | cons a l ih =>
    have hqa : q ≠ a := fun hc => h (hc ▸ List.mem_cons_self a l)
    have hql : q ∉ l := fun hc => h (List.mem_cons_of_mem a hc)
    unfold createDirs
    rw [List.foldl_cons]
    by_cases hm : fsMem fs a
    · rw [if_pos hm]
      exact ih fs hql
    · rw [if_neg hm]
      rw [show (List.foldl (fun acc q => if fsMem acc q then acc
            else fsInsert acc q Node.dir) (fsInsert fs a Node.dir) l)
          = createDirs (fsInsert fs a Node.dir) l from rfl]
      rw [ih _ hql]
      exact fsFind_fsInsert_ne fs a q Node.dir hqa

theorem fsMem_fsInsert (fs : FS) (p q : AbsPath) (n : Node) :
    fsMem (fsInsert fs p n) q = true ↔ q = p ∨ fsMem fs q = true := by
  by_cases h : q = p
  · subst h
    simp [fsMem, fsFind_fsInsert_self]
  · rw [fsMem, fsFind_fsInsert_ne fs p q n h]
    simp [fsMem, h]

theorem fsMem_createDirs_of_mem_fs (fs : FS) (l : List AbsPath) (q : AbsPath)
    (h : fsMem fs q = true) : fsMem (createDirs fs l) q = true := by
  induction l generalizing fs with
  | nil => exact h
  | cons a l ih =>
    unfold createDirs
    rw [List.foldl_cons]
    by_cases hm : fsMem fs a
    · rw [if_pos hm]; exact ih fs h
    · rw [if_neg hm]
      exact ih _ ((fsMem_fsInsert fs a q Node.dir).mpr (Or.inr h))

theorem fsMem_createDirs_of_mem (fs : FS) (l : List AbsPath) (q : AbsPath)
    (h : q ∈ l) : fsMem (createDirs fs l) q = true := by
  induction l generalizing fs with
  | nil => exact absurd h (List.not_mem_nil q)
  | cons a l ih =>
    unfold createDirs
    rw [List.foldl_cons]
    rcases List.mem_cons.mp h with rfl | hql
    · by_cases hm : fsMem fs q
      · rw [if_pos hm]
        exact fsMem_createDirs_of_mem_fs fs l q hm
      · rw [if_neg hm]
        exact fsMem_createDirs_of_mem_fs _ l q
          ((fsMem_fsInsert fs q q Node.dir).mpr (Or.inl rfl))
    · by_cases hm : fsMem fs a
      · rw [if_pos hm]; exact ih fs hql
      · rw [if_neg hm]; exact ih _ hql

theorem createDirs_eq_self (fs : FS) (l : List AbsPath)
    (h : ∀ q ∈ l, fsMem fs q = true) : createDirs fs l = fs := by
  induction l with
  | nil => rfl
  | cons a l ih =>
    unfold createDirs
    rw [List.foldl_cons, if_pos (h a (List.mem_cons_self a l))]
    exact ih (fun q hq => h q (List.mem_cons_of_mem a hq))

theorem fsIsDir_fsInsert_ne (fs : FS) (p q : AbsPath) (n : Node) (h : q ≠ p) :
    fsIsDir (fsInsert fs p n) q = fsIsDir fs q := by
  unfold fsIsDir
  rw [fsFind_fsInsert_ne fs p q n h]

theorem fsIsDir_createDirs_preserve (fs : FS) (l : List AbsPath) (q : AbsPath)
    (h : fsIsDir fs q = true) : fsIsDir (createDirs fs l) q = true := by
  induction l generalizing fs with
  | nil => exact h
  | cons a l ih =>
    unfold createDirs
    rw [List.foldl_cons]
    by_cases hm : fsMem fs a
    · rw [if_pos hm]; exact ih fs h
    · rw [if_neg hm]
      by_cases hq : q = a
      · exact absurd (hq ▸ fsMem_of_isDir fs q h) hm
      · exact ih _ ((fsIsDir_fsInsert_ne fs a q Node.dir hq) ▸ h)

theorem fsIsFile_fsInsert_dir (fs : FS) (a q : AbsPath)
    (h : fsIsFile fs q = false) : fsIsFile (fsInsert fs a Node.dir) q = false := by
  by_cases hq : q = a
  · subst hq
    simp [fsIsFile, fsFind_fsInsert_self, Node.isFile]
  · unfold fsIsFile
    rw [fsFind_fsInsert_ne fs a q Node.dir hq]
    exact h

theorem fsIsDir_of_mem_not_file (fs : FS) (q : AbsPath)
    (hmem : fsMem fs q = true) (hf : fsIsFile fs q = false) :
    fsIsDir fs q = true := by
  unfold fsMem at hmem
  obtain ⟨n, hn⟩ := Option.isSome_iff_exists.mp hmem
  cases n with
  | file d =>
    have : fsIsFile fs q = true := (fsIsFile_eq_true_iff fs q).mpr ⟨d, hn⟩
    rw [this] at hf; exact absurd hf (by simp)
  | dir => exact (fsIsDir_eq_true_iff fs q).mpr hn

theorem fsIsDir_createDirs_of_mem (fs : FS) (l : List AbsPath) (q : AbsPath)
    (hl : ∀ x ∈ l, fsIsFile fs x = false) (h : q ∈ l) :
    fsIsDir (createDirs fs l) q = true := by
  induction l generalizing fs with
  | nil => exact absurd h (List.not_mem_nil q)
  | cons a l ih =>
    unfold createDirs
    rw [List.foldl_cons]
    rcases List.mem_cons.mp h with rfl | hql
    · by_cases hm : fsMem fs q
      · rw [if_pos hm]
        exact fsIsDir_createDirs_preserve fs l q
          (fsIsDir_of_mem_not_file fs q hm (hl q (List.mem_cons_self q l)))
      · rw [if_neg hm]
        refine fsIsDir_createDirs_preserve _ l q ?_
        simp [fsIsDir, fsFind_fsInsert_self, Node.isDir]
    · by_cases hm : fsMem fs a
      · rw [if_pos hm]
        exact ih fs (fun x hx => hl x (List.mem_cons_of_mem a hx)) hql
      · rw [if_neg hm]
        exact ih _ (fun x hx => fsIsFile_fsInsert_dir fs a x
          (hl x (List.mem_cons_of_mem a hx))) hql

theorem mkdirParents_eq_ok (fs fs1 : FS) (p : AbsPath)
    (h : mkdirParents fs p = Except.ok fs1) :
    (∀ q ∈ properPrefixes p, fsIsFile fs q = false)
      ∧ fs1 = createDirs fs (properPrefixes p) := by
  unfold mkdirParents at h
  by_cases ha : (properPrefixes p).any (fun q => fsIsFile fs q)
  · rw [if_pos ha] at h
    exact absurd h (by simp)
  · rw [if_neg ha] at h
    have ha2 : (properPrefixes p).any (fun q => fsIsFile fs q) = false := by
      simpa using ha
    refine ⟨?_, ?_⟩
    · intro q hq
      have := List.any_eq_false.mp ha2 q hq
      simpa using this
    · injection h with h1
      exact h1.symm

theorem fsFind_mkdirParents_other (fs fs1 : FS) (p q : AbsPath)
    (h : mkdirParents fs p = Except.ok fs1) (hq : q ∉ properPrefixes p) :
    fsFind fs1 q = fsFind fs q := by
  obtain ⟨-, rfl⟩ := mkdirParents_eq_ok fs fs1 p h
  exact fsFind_createDirs_of_not_mem fs _ q hq

theorem fsFind_mkdirParents_self (fs fs1 : FS) (p : AbsPath)
    (h : mkdirParents fs p = Except.ok fs1) : fsFind fs1 p = fsFind fs p :=
  fsFind_mkdirParents_other fs fs1 p p h (self_not_mem_properPrefixes p)

theorem mkdirParents_ok_mem (fs fs1 : FS) (p : AbsPath)
    (h : mkdirParents fs p = Except.ok fs1) :
    ∀ q ∈ properPrefixes p, fsMem fs1 q = true := by
  obtain ⟨-, rfl⟩ := mkdirParents_eq_ok fs fs1 p h
  exact fun q hq => fsMem_createDirs_of_mem fs _ q hq

theorem mkdirParents_ok_isDir (fs fs1 : FS) (p : AbsPath)
    (h : mkdirParents fs p = Except.ok fs1) :
    ∀ q ∈ properPrefixes p, fsIsDir fs1 q = true := by
  obtain ⟨hnf, rfl⟩ := mkdirParents_eq_ok fs fs1 p h
  exact fun q hq => fsIsDir_createDirs_of_mem fs _ q hnf hq

theorem mkdirParents_of_isDir (fs : FS) (p : AbsPath)
    (h : ∀ q ∈ properPrefixes p, fsIsDir fs q = true) :
    mkdirParents fs p = Except.ok fs := by
  unfold mkdirParents
  rw [if_neg, createDirs_eq_self fs _ (fun q hq => fsMem_of_isDir fs q (h q hq))]
  simp only [List.any_eq_true, not_exists, not_and]
  intro q hq
  simp [fsIsFile_eq_false_of_isDir fs q (h q hq)]

theorem lexLe_total (a b : List Char) : lexLe a b = true ∨ lexLe b a = true := by
  induction a generalizing b with
  | nil => left; rfl
  | cons x xs ih =>
    cases b with
    | nil => right; rfl
    | cons y ys =>
      by_cases hlt : x.toNat < y.toNat
      · left; simp [lexLe, hlt]
      · by_cases heq : x.toNat = y.toNat
        · rcases ih ys with h | h
          · left; simp only [lexLe]; rw [if_neg hlt, if_pos heq]; exact h
          · right; simp only [lexLe]
            rw [if_neg (by omega), if_pos heq.symm]; exact h
        · right
          have hyx : y.toNat < x.toNat := by omega
          simp [lexLe, hyx]

theorem lexLe_trans (a b c : List Char) (hab : lexLe a b = true)
    (hbc : lexLe b c = true) : lexLe a c = true := by
  induction a generalizing b c with
  | nil => rfl
  | cons x xs ih =>
    cases b with
    | nil => exact absurd hab (by simp [lexLe])
    | cons y ys =>
      cases c with
      | nil => exact absurd hbc (by simp [lexLe])
      | cons z zs =>
        simp only [lexLe] at hab hbc ⊢
        by_cases hxy : x.toNat < y.toNat
        · by_cases hyz : y.toNat < z.toNat
          · rw [if_pos (by omega)]
          · by_cases heyz : y.toNat = z.toNat
            · rw [if_pos (by omega)]
            · rw [if_neg hyz, if_neg heyz] at hbc
              exact absurd hbc (by simp)
        · by_cases hexy : x.toNat = y.toNat
          · rw [if_neg hxy, if_pos hexy] at hab
            by_cases hyz : y.toNat < z.toNat
            · rw [if_pos (by omega)]
            · by_cases heyz : y.toNat = z.toNat
              · rw [if_neg hyz, if_pos heyz] at hbc
                rw [if_neg (by omega), if_pos (by omega)]
                exact ih ys zs hab hbc
              · rw [if_neg hyz, if_neg heyz] at hbc
                exact absurd hbc (by simp)
          · rw [if_neg hxy, if_neg hexy] at hab
            exact absurd hab (by simp)

instance : IsTotal String strLe :=
  ⟨fun a b => lexLe_total a.data b.data⟩

instance : IsTrans String strLe :=
  ⟨fun a b c => lexLe_trans a.data b.data c.data⟩

theorem sortNames_sorted (l : List String) : (sortNames l).Sorted strLe :=
  List.sorted_insertionSort strLe l

theorem mem_sortNames (l : List String) (a : String) :
    a ∈ sortNames l ↔ a ∈ l :=
  List.mem_insertionSort strLe

theorem sortNames_nodup (l : List String) (h : l.Nodup) :
    (sortNames l).Nodup :=
  (List.perm_insertionSort strLe l).nodup_iff.mpr h

theorem sortNames_nil : sortNames [] = [] := rfl

theorem foldl_sep_starts (l : List String) (a : String) :
    a.data <+: (l.foldl (fun x c => x ++ "/" ++ c) a).data := by
  induction l generalizing a with
  | nil => exact List.prefix_refl _
  | cons c l ih =>
    refine List.IsPrefix.trans ?_ (ih (a ++ "/" ++ c))
    rw [String.data_append, String.data_append, List.append_assoc]
    exact List.prefix_append _ _

theorem pathStr_mono {base t : AbsPath} (h : base <+: t) :
    strStartsWith (pathStr base) (pathStr t) = true := by
  obtain ⟨r, rfl⟩ := h
  cases base with
  | nil =>
    cases r with
    | nil => simp [strStartsWith, pathStr, List.isPrefixOf_iff_prefix]
    | cons c cs =>
      simp only [List.nil_append, strStartsWith, pathStr, List.isEmpty_nil,
        List.isEmpty_cons, if_true, Bool.false_eq_true, if_false, List.foldl_cons,
        List.isPrefixOf_iff_prefix]
      refine List.IsPrefix.trans ?_ (foldl_sep_starts cs ("" ++ "/" ++ c))
      rw [String.data_append, String.data_append]
      refine List.IsPrefix.trans ?_ (List.prefix_append _ _)
      decide
  | cons b bs =>
    simp only [strStartsWith, pathStr, List.isEmpty_cons, List.cons_append,
      Bool.false_eq_true, if_false, List.isPrefixOf_iff_prefix]
    rw [List.foldl_cons, List.foldl_cons, List.foldl_append]
    exact foldl_sep_starts r _

/-- C1 (amended): `_resolve_safe` succeeds exactly when the string rendering of
the canonicalized target starts with the string rendering of Root (Python's
`str(target).startswith(str(base))`); on success it returns the canonical
target.  In particular every path whose canonical resolution stays within Root
is accepted, but the string-prefix test also accepts escapes into siblings of
Root whose final component extends Root's final component, so acceptance is
not equivalent to containment in Root. -/
theorem C1_resolve_safe_amended (base : AbsPath) (p : PyPath) :
    (∀ t, resolve_safe base p = Except.ok t → t = canonTarget base p)
    ∧ (resolve_safe base p = Except.ok (canonTarget base p)
        ↔ strStartsWith (pathStr base) (pathStr (canonTarget base p)) = true)
    ∧ (isWithin base (canonTarget base p) →
        resolve_safe base p = Except.ok (canonTarget base p)) := by
  refine ⟨?_, ?_, ?_⟩
  · intro t ht
    unfold resolve_safe at ht
    split at ht
    · exact (Except.ok.injEq _ _ ▸ ht).symm
    · exact absurd ht (by simp)
  · unfold resolve_safe
    split
    · next h => simp [h]
    · next h => simp [h]
  · intro hw
    unfold resolve_safe
    rw [if_pos (pathStr_mono hw)]

theorem C1_resolve_safe_amended_witness :
    resolve_safe ["home", "user"] ⟨false, ["docs", "..", "notes.txt"]⟩ =
      Except.ok ["home", "user", "notes.txt"] :=
  (C1_resolve_safe_amended ["home", "user"] ⟨false, ["docs", "..", "notes.txt"]⟩).2.2
    (by decide)

theorem mem_searchHits (fs : FS) (r : AbsPath) (needle : String) (q : AbsPath) :
    q ∈ searchHits fs r needle ↔
      fsMem fs q = true ∧ strictlyUnder r q = true ∧ fsIsFile fs q = true
        ∧ containsSub needle (lowerStr (lastName q)) = true := by
  unfold searchHits rglobAll
  rw [List.mem_filter, List.mem_filter, mem_fsKeys]
  constructor
  · rintro ⟨⟨hk, hu⟩, hp⟩
    simp only [Bool.and_eq_true] at hp
    exact ⟨hk, hu, hp.1, hp.2⟩
  · rintro ⟨hk, hu, h1, h2⟩
    exact ⟨⟨hk, hu⟩, by simp only [Bool.and_eq_true]; exact ⟨h1, h2⟩⟩

theorem mem_searchInHits (fs : FS) (r : AbsPath) (text : String) (q : AbsPath) :
    q ∈ searchInHits fs r text ↔
      fsMem fs q = true ∧ strictlyUnder r q = true
        ∧ ∃ s, fsFind fs q = some (Node.file (FileData.txt s))
            ∧ containsSub text s = true := by
  unfold searchInHits rglobAll
  rw [List.mem_filter, List.mem_filter, mem_fsKeys]
  constructor
  · rintro ⟨⟨hk, hu⟩, hp⟩
    refine ⟨hk, hu, ?_⟩
    cases hf : fsFind fs q with
    | none => rw [hf] at hp; exact absurd hp (by simp)
    | some n =>
      rw [hf] at hp
      cases n with
      | dir => exact absurd hp (by simp)
      | file d =>
        cases d with
        | txt s => exact ⟨s, rfl, by simpa using hp⟩
        | blob k => exact absurd hp (by simp)
  · rintro ⟨hk, hu, s, hs, hc⟩
    refine ⟨⟨hk, hu⟩, ?_⟩
    rw [hs]
    simpa using hc

theorem read_file_of_find (root : AbsPath) (fs : FS) (b : PyPath) (d : AbsPath)
    (da : FileData) (hres : resolve_safe root b = Except.ok d)
    (h : fsFind fs d = some (Node.file da)) :
    read_file root fs b = readData da := by
  have hm : fsMem fs d = true := fsMem_of_find _ _ _ h
  have hf : fsIsFile fs d = true := (fsIsFile_eq_true_iff _ _).mpr ⟨da, h⟩
  simp [read_file, hres, hm, hf, h]

theorem FSwf_iff (fs : FS) : FSwf fs ↔ FSwfB fs = true := by
  unfold FSwf FSwfB
  rw [List.all_eq_true]
  constructor
  · intro h e he
    rw [List.all_eq_true]
    intro i hi
    exact h e he i (List.mem_range.mp hi)
  · intro h e he i hi
    have h2 := h e he
    rw [List.all_eq_true] at h2
    exact h2 i (List.mem_range.mpr hi)

theorem fsFind_eq_some_imp_mem (fs : FS) (p : AbsPath) (n : Node)
    (h : fsFind fs p = some n) : (p, n) ∈ fs := by
  unfold fsFind at h
  obtain ⟨e, he, h2⟩ := Option.map_eq_some'.mp h
  have hm := List.mem_of_find?_eq_some he
  have hp := List.find?_some he
  rcases e with ⟨q, m⟩
  have hq : q = p := by simpa using hp
  have hmn : m = n := h2
  rw [← hq, ← hmn]
  exact hm

/-- C1 counterexample: with Root `/a`, the absolute input `/ab` canonicalizes
to `/ab`, which lies outside Root, yet `_resolve_safe` accepts it, because the
string-prefix test `"/ab".startswith("/a")` passes.  So `resolve` does not
fail with `PathEscapeError` on every input whose canonical form lies outside
Root. -/
theorem C1_resolve_safe_counterexample :
    resolve_safe ["a"] ⟨true, ["ab"]⟩ = Except.ok ["ab"]
      ∧ ¬ isWithin ["a"] ["ab"] :=
  ⟨rfl, by decide⟩

/-- C4: `delete_file` on a path that does not exist returns the success-style
`"Already gone"` confirmation rather than raising, and leaves the filesystem
state unchanged. -/
theorem C4_delete_file_missing (root : AbsPath) (fs : FS) (p : PyPath)
    (fp : AbsPath) (recursive : Bool)
    (hres : resolve_safe root p = Except.ok fp)
    (h : fsMem fs fp = false) :
    delete_file root fs p recursive =
      (fs, Except.ok ("Already gone: " ++ pathStr fp)) := by
  simp [delete_file, hres, h]

theorem C4_delete_file_missing_witness :
    delete_file rootC fsTreeC ⟨false, ["nope"]⟩ false =
      (fsTreeC, Except.ok ("Already gone: " ++ pathStr ["r", "nope"])) :=
  C4_delete_file_missing rootC fsTreeC ⟨false, ["nope"]⟩ ["r", "nope"] false rfl rfl

/-- C5: on an existing directory, non-recursive `delete_file` fails with a
non-empty-directory error when the directory has entries below it and removes
the directory when it is empty; recursive `delete_file` removes the whole
subtree. -/
theorem C5_delete_file_dir (root : AbsPath) (fs : FS) (p : PyPath) (fp : AbsPath)
    (hres : resolve_safe root p = Except.ok fp)
    (hdir : fsIsDir fs fp = true) :
    (hasDescendant fs fp = true →
      delete_file root fs p false =
        (fs, Except.error ("Directory not empty: " ++ pathStr fp)))
    ∧ (hasDescendant fs fp = false →
        delete_file root fs p false =
          (fsErase fs fp, Except.ok ("Removed directory: " ++ pathStr fp))
        ∧ fsFind (fsErase fs fp) fp = none)
    ∧ (delete_file root fs p true =
        (fsEraseTree fs fp,
         Except.ok ("Removed directory tree: " ++ pathStr fp))
      ∧ ∀ q, fp <+: q → fsFind (fsEraseTree fs fp) q = none) := by
  have hmem := fsMem_of_isDir fs fp hdir
  refine ⟨?_, ?_, ?_⟩
  · intro hd
    simp [delete_file, hres, hmem, hdir, hd]
  · intro hd
    refine ⟨?_, fsFind_fsErase_self fs fp⟩
    simp [delete_file, hres, hmem, hdir, hd]
  · refine ⟨?_, fun q hq => fsFind_fsEraseTree_under fs fp q hq⟩
    simp [delete_file, hres, hmem, hdir]

theorem C5_delete_file_dir_witness :
    delete_file rootC fsTreeC ⟨false, ["sub"]⟩ false =
      (fsTreeC, Except.error ("Directory not empty: " ++ pathStr ["r", "sub"])) :=
  (C5_delete_file_dir rootC fsTreeC ⟨false, ["sub"]⟩ ["r", "sub"] rfl rfl).1 rfl

/-- C8: `list_directory` on an existing directory returns one entry per
immediate child — sorted by name, with the `is_dir` flag and the size of the
node stored at the child path — and the empty sequence for an empty
directory; a missing path or a non-directory fails. -/
theorem C8_list_directory (root : AbsPath) (fs : FS) (p : PyPath) (d : AbsPath)
    (hres : resolve_safe root p = Except.ok d) :
    (fsIsDir fs d = false →
      list_directory root fs p =
        Except.error ("Not a directory: " ++ pathStr d))
    ∧ (fsIsDir fs d = true →
        list_directory root fs p =
          Except.ok ((sortNames (childNames fs d)).map
            (fun c => format_entry fs (d ++ [c])))
        ∧ (childNames fs d = [] → list_directory root fs p = Except.ok [])
        ∧ (sortNames (childNames fs d)).Sorted strLe
        ∧ (sortNames (childNames fs d)).Nodup
        ∧ (∀ c, c ∈ sortNames (childNames fs d) ↔ fsMem fs (d ++ [c]) = true)
        ∧ (∀ c, format_entry fs (d ++ [c]) =
            ⟨pathStr (d ++ [c]), c, fsIsDir fs (d ++ [c]),
             (fsFind fs (d ++ [c])).map nodeSize⟩)) := by
  constructor
  · intro hnd
    simp [list_directory, hres, hnd]
  · intro hdir
    have hmem := fsMem_of_isDir fs d hdir
    have hmain : list_directory root fs p =
        Except.ok ((sortNames (childNames fs d)).map
          (fun c => format_entry fs (d ++ [c]))) := by
      simp [list_directory, hres, hmem, hdir]
    refine ⟨hmain, ?_, sortNames_sorted _,
      sortNames_nodup _ (childNames_nodup fs d), ?_, ?_⟩
    · intro hnil
      rw [hmain, hnil]
      rfl
    · intro c
      rw [mem_sortNames]
      exact mem_childNames fs d c
    · intro c
      simp [format_entry, lastName, List.getLast?_concat]

theorem C8_list_directory_witness :
    list_directory rootC fsEmptyC dotPath = Except.ok [] :=
  ((C8_list_directory rootC fsEmptyC dotPath ["r"] rfl).2 rfl).2.1 rfl

/-- C6: `search_files` over an existing directory returns exactly the paths of
the regular files in the recursive tree whose lowered base name contains the
lowered needle (Python's case-insensitive substring test); an empty or absent
needle matches every file; a missing or non-directory root fails. -/
theorem C6_search_files (root : AbsPath) (fs : FS) (p : PyPath) (r : AbsPath)
    (nc : Option String)
    (hres : resolve_safe root p = Except.ok r) :
    (fsIsDir fs r = false →
      search_files root fs p nc =
        Except.error ("Not a directory: " ++ pathStr r))
    ∧ (fsIsDir fs r = true →
        search_files root fs p nc =
          Except.ok ((searchHits fs r (lowerStr (nc.getD ""))).map pathStr)
        ∧ (∀ q, q ∈ searchHits fs r (lowerStr (nc.getD "")) ↔
            fsMem fs q = true ∧ strictlyUnder r q = true
              ∧ fsIsFile fs q = true
              ∧ containsSub (lowerStr (nc.getD "")) (lowerStr (lastName q)) = true)
        ∧ (nc.getD "" = "" →
            ∀ q, q ∈ searchHits fs r (lowerStr (nc.getD "")) ↔
              fsMem fs q = true ∧ strictlyUnder r q = true
                ∧ fsIsFile fs q = true)) := by
  constructor
  · intro hnd
    simp [search_files, hres, hnd]
  · intro hdir
    have hmem := fsMem_of_isDir fs r hdir
    refine ⟨by simp [search_files, hres, hmem, hdir],
      fun q => mem_searchHits fs r _ q, ?_⟩
    intro hne q
    rw [mem_searchHits]
    have hc : containsSub (lowerStr (nc.getD "")) (lowerStr (lastName q)) = true := by
      rw [hne]
      unfold containsSub
      rw [decide_eq_true_eq]
      exact List.nil_infix
    simp [hc]

theorem C6_search_files_witness :
    search_files rootC fsTreeC dotPath (some "report") =
      Except.ok ["/r/report1.txt", "/r/REPORT_final.csv"] := by
  have h := ((C6_search_files rootC fsTreeC dotPath ["r"] (some "report") rfl).2
    rfl).1
  rw [h]
  rfl

/-- C7: `search_in_files` returns the empty result for empty search text
before touching the tree; otherwise over an existing directory it returns
exactly the files that decode as text and contain the text as a literal
substring, silently skipping files that fail to decode; a missing or
non-directory root fails. -/
theorem C7_search_in_files (root : AbsPath) (fs : FS) (p : PyPath) (r : AbsPath)
    (text : String)
    (hres : resolve_safe root p = Except.ok r) :
    (fsIsDir fs r = false →
      search_in_files root fs p text =
        Except.error ("Not a directory: " ++ pathStr r))
    ∧ (fsIsDir fs r = true → text = "" →
        search_in_files root fs p text = Except.ok [])
    ∧ (fsIsDir fs r = true → text ≠ "" →
        search_in_files root fs p text =
          Except.ok ((searchInHits fs r text).map pathStr)
        ∧ (∀ q, q ∈ searchInHits fs r text ↔
            fsMem fs q = true ∧ strictlyUnder r q = true
              ∧ ∃ s, fsFind fs q = some (Node.file (FileData.txt s))
                  ∧ containsSub text s = true)) := by
  refine ⟨?_, ?_, ?_⟩
  · intro hnd
    simp [search_in_files, hres, hnd]
  · intro hdir htext
    have hmem := fsMem_of_isDir fs r hdir
    simp [search_in_files, hres, hmem, hdir, htext]
  · intro hdir htext
    have hmem := fsMem_of_isDir fs r hdir
    exact ⟨by simp [search_in_files, hres, hmem, hdir, htext],
      fun q => mem_searchInHits fs r text q⟩

theorem C7_search_in_files_witness :
    search_in_files rootC fsTreeC dotPath "alpha" =
      Except.ok ["/r/report1.txt", "/r/notes.md", "/r/sub/a.txt"] := by
  have h := ((C7_search_in_files rootC fsTreeC dotPath ["r"] "alpha" rfl).2.2
    rfl (by decide)).1
  rw [h]
  rfl

/-- C2: `write_file` on a missing target creates it with exactly the given
content (after creating the missing parent directories); a second call with
content `c2` appends, leaving `c1 ++ c2` in the file, and its reported
character and byte counts are those of `c2` alone, not of the cumulative
content; a target that exists and is not a regular file raises. -/
theorem C2_write_file (root : AbsPath) (fs fs1 : FS) (p : PyPath) (fp : AbsPath)
    (c1 c2 : String)
    (hres : resolve_safe root p = Except.ok fp)
    (hmk : mkdirParents fs fp = Except.ok fs1) :
    (fsFind fs fp = none →
      write_file root fs p c1 =
        (fsInsert fs1 fp (Node.file (FileData.txt c1)),
         Except.ok ("Created file at " ++ pathStr fp
           ++ " | Characters written: " ++ toString c1.length
           ++ " | Bytes written: " ++ toString c1.utf8ByteSize))
      ∧ fsFind (write_file root fs p c1).1 fp = some (Node.file (FileData.txt c1))
      ∧ (∀ q ∈ properPrefixes fp, fsMem (write_file root fs p c1).1 q = true)
      ∧ write_file root (write_file root fs p c1).1 p c2 =
          (fsInsert (write_file root fs p c1).1 fp
             (Node.file (FileData.txt (c1 ++ c2))),
           Except.ok ("Appended file at " ++ pathStr fp
             ++ " | Characters written: " ++ toString c2.length
             ++ " | Bytes written: " ++ toString c2.utf8ByteSize))
      ∧ fsFind (write_file root (write_file root fs p c1).1 p c2).1 fp
          = some (Node.file (FileData.txt (c1 ++ c2))))
    ∧ (fsFind fs fp = some Node.dir →
        write_file root fs p c1 =
          (fs1, Except.error ("Target exists and is not a file: " ++ pathStr fp))) := by
  have hfind1 : fsFind fs1 fp = fsFind fs fp :=
    fsFind_mkdirParents_self fs fs1 fp hmk
  constructor
  · intro hne
    have hf1 : fsFind fs1 fp = none := hfind1.trans hne
    have hm1 : fsMem fs1 fp = false := by simp [fsMem, hf1]
    have step1 : write_file root fs p c1 =
        (fsInsert fs1 fp (Node.file (FileData.txt c1)),
         Except.ok ("Created file at " ++ pathStr fp
           ++ " | Characters written: " ++ toString c1.length
           ++ " | Bytes written: " ++ toString c1.utf8ByteSize)) := by
      simp [write_file, hres, hmk, hm1, hf1]
    have hfst : (write_file root fs p c1).1 = fsInsert fs1 fp (Node.file (FileData.txt c1)) := by
      rw [step1]
    have hqne : ∀ q ∈ properPrefixes fp, q ≠ fp := by
      intro q hq hc
      exact absurd (hc ▸ length_lt_of_mem_properPrefixes fp q hq) (lt_irrefl _)
    have hdirs2 : ∀ q ∈ properPrefixes fp,
        fsIsDir (fsInsert fs1 fp (Node.file (FileData.txt c1))) q = true := by
      intro q hq
      rw [fsIsDir_fsInsert_ne fs1 fp q _ (hqne q hq)]
      exact mkdirParents_ok_isDir fs fs1 fp hmk q hq
    have hmk2 : mkdirParents (fsInsert fs1 fp (Node.file (FileData.txt c1))) fp =
        Except.ok (fsInsert fs1 fp (Node.file (FileData.txt c1))) :=
      mkdirParents_of_isDir _ fp hdirs2
    have hf2 : fsFind (fsInsert fs1 fp (Node.file (FileData.txt c1))) fp =
        some (Node.file (FileData.txt c1)) := fsFind_fsInsert_self fs1 fp _
    have hm2 : fsMem (fsInsert fs1 fp (Node.file (FileData.txt c1))) fp = true :=
      fsMem_of_find _ _ _ hf2
    have hfile2 : fsIsFile (fsInsert fs1 fp (Node.file (FileData.txt c1))) fp = true :=
      (fsIsFile_eq_true_iff _ _).mpr ⟨_, hf2⟩
    have step2 : write_file root (fsInsert fs1 fp (Node.file (FileData.txt c1))) p c2 =
        (fsInsert (fsInsert fs1 fp (Node.file (FileData.txt c1))) fp
           (Node.file (FileData.txt (c1 ++ c2))),
         Except.ok ("Appended file at " ++ pathStr fp
           ++ " | Characters written: " ++ toString c2.length
           ++ " | Bytes written: " ++ toString c2.utf8ByteSize)) := by
      simp [write_file, hres, hmk2, hm2, hfile2, hf2, appendData]
    refine ⟨step1, ?_, ?_, ?_, ?_⟩
    · rw [hfst]
      exact fsFind_fsInsert_self fs1 fp _
    · intro q hq
      rw [hfst]
      exact (fsMem_fsInsert fs1 fp q _).mpr
        (Or.inr (mkdirParents_ok_mem fs fs1 fp hmk q hq))
    · rw [hfst]
      exact step2
    · rw [hfst, step2]
      exact fsFind_fsInsert_self _ fp _
  · intro hd
    have hf1 : fsFind fs1 fp = some Node.dir := hfind1.trans hd
    have hm1 : fsMem fs1 fp = true := fsMem_of_find _ _ _ hf1
    have hnf1 : fsIsFile fs1 fp = false :=
      fsIsFile_eq_false_of_isDir fs1 fp ((fsIsDir_eq_true_iff fs1 fp).mpr hf1)
    simp [write_file, hres, hmk, hm1, hnf1]

theorem C2_write_file_witness :
    fsFind (write_file rootC
        (write_file rootC fsEmptyC ⟨false, ["docs", "a.txt"]⟩ "hi").1
        ⟨false, ["docs", "a.txt"]⟩ " there").1 ["r", "docs", "a.txt"]
      = some (Node.file (FileData.txt "hi there")) := by
  have h := (C2_write_file rootC fsEmptyC
      [(["r", "docs"], Node.dir), ([], Node.dir), (["r"], Node.dir)]
      ⟨false, ["docs", "a.txt"]⟩ ["r", "docs", "a.txt"] "hi" " there"
      rfl rfl).1 rfl
  exact h.2.2.2.2

/-- C10 (amended): `write_file` does run the parent-directory creation before
it validates the target's type; but when that validation fails the target is
an existing directory, so in any well-formed filesystem every ancestor of the
target already exists, the `mkdir` call creates nothing, and the failing call
leaves the filesystem state exactly unchanged — it is state-preserving. -/
theorem C10_write_file_parents (root : AbsPath) (fs : FS) (p : PyPath)
    (fp : AbsPath) (c : String)
    (hwf : FSwf fs)
    (hres : resolve_safe root p = Except.ok fp)
    (hdir : fsFind fs fp = some Node.dir) :
    mkdirParents fs fp = Except.ok fs
    ∧ write_file root fs p c =
        (fs, Except.error ("Target exists and is not a file: " ++ pathStr fp)) := by
  have hmem : ((fp, Node.dir) : AbsPath × Node) ∈ fs :=
    fsFind_eq_some_imp_mem fs fp Node.dir hdir
  have hdirs : ∀ q ∈ properPrefixes fp, fsIsDir fs q = true := by
    intro q hq
    obtain ⟨i, hi, rfl⟩ := (mem_properPrefixes fp q).mp hq
    exact hwf (fp, Node.dir) hmem i hi
  have hmk : mkdirParents fs fp = Except.ok fs := mkdirParents_of_isDir fs fp hdirs
  refine ⟨hmk, ?_⟩
  have hm : fsMem fs fp = true := fsMem_of_find _ _ _ hdir
  have hnf : fsIsFile fs fp = false :=
    fsIsFile_eq_false_of_isDir fs fp ((fsIsDir_eq_true_iff fs fp).mpr hdir)
  simp [write_file, hres, hmk, hm, hnf]

theorem C10_write_file_parents_witness :
    write_file rootC fsDirC ⟨false, ["d"]⟩ "x" =
      (fsDirC, Except.error ("Target exists and is not a file: " ++ pathStr ["r", "d"])) :=
  (C10_write_file_parents rootC fsDirC ⟨false, ["d"]⟩ ["r", "d"] "x"
    ((FSwf_iff fsDirC).mpr rfl) rfl rfl).2

/-- C10 counterexample: in the well-formed tree `fsDirC` the call
`write_file "d" "x"` fails because `/r/d` is an existing directory, and the
resulting state is exactly the input state — no newly created parent
directories persist, so the failing call is state-preserving, contrary to the
claim that it is not. -/
theorem C10_write_file_parents_counterexample :
    write_file rootC fsDirC ⟨false, ["d"]⟩ "x" =
      (fsDirC, Except.error "Target exists and is not a file: /r/d") := rfl

/-- C9 (amended): for a regular source file and a destination whose resolved
path is not an existing directory and whose ancestor chain contains no regular
file, reading the destination after `copy_file` yields exactly what reading
the source yields.  (When the destination resolves to an existing directory,
`shutil.copy2` copies *into* it instead, and reading the destination path then
fails, so the unrestricted round-trip of the original claim does not hold.) -/
theorem C9_copy_file_roundtrip (root : AbsPath) (fs fs1 : FS) (a b : PyPath)
    (s d : AbsPath) (da : FileData)
    (hres_a : resolve_safe root a = Except.ok s)
    (hres_b : resolve_safe root b = Except.ok d)
    (hsrc : fsFind fs s = some (Node.file da))
    (hnd : fsIsDir fs d = false)
    (hmk : mkdirParents fs d = Except.ok fs1) :
    read_file root (copy_file root fs a b true).1 b = read_file root fs a := by
  have hsf : fsIsFile fs s = true := (fsIsFile_eq_true_iff fs s).mpr ⟨da, hsrc⟩
  have hsm : fsMem fs s = true := fsMem_of_find fs s _ hsrc
  have hfd1 : fsFind fs1 d = fsFind fs d := fsFind_mkdirParents_self fs fs1 d hmk
  have hnd1 : fsIsDir fs1 d = false := by
    unfold fsIsDir at hnd ⊢
    rw [hfd1]
    exact hnd
  have hsnot : s ∉ properPrefixes d := by
    intro hq
    have hfs := (mkdirParents_eq_ok fs fs1 d hmk).1 s hq
    rw [hsf] at hfs
    exact absurd hfs (by simp)
  have hfs1 : fsFind fs1 s = some (Node.file da) := by
    rw [fsFind_mkdirParents_other fs fs1 d s hmk hsnot]
    exact hsrc
  rw [read_file_of_find root fs a s da hres_a hsrc]
  by_cases hds : d = s
  · subst hds
    have hc1 : (copy_file root fs a b true).1 = fs1 := by
      simp [copy_file, hres_a, hres_b, hsm, hsf, hmk, hnd1]
    rw [hc1]
    refine read_file_of_find root fs1 b d da hres_b ?_
    rw [hfd1]
    exact hsrc
  · have hc1 : (copy_file root fs a b true).1 = fsInsert fs1 d (Node.file da) := by
      simp [copy_file, hres_a, hres_b, hsm, hsf, hmk, hnd1, hds, hfs1]
    rw [hc1]
    exact read_file_of_find root _ b d da hres_b (fsFind_fsInsert_self fs1 d _)

theorem C9_copy_file_roundtrip_witness :
    read_file rootC (copy_file rootC fsTreeC ⟨false, ["notes.md"]⟩
        ⟨false, ["sub", "copy.md"]⟩ true).1 ⟨false, ["sub", "copy.md"]⟩ =
      read_file rootC fsTreeC ⟨false, ["notes.md"]⟩ :=
  C9_copy_file_roundtrip rootC fsTreeC fsTreeC ⟨false, ["notes.md"]⟩
    ⟨false, ["sub", "copy.md"]⟩ ["r", "notes.md"] ["r", "sub", "copy.md"]
    (FileData.txt "see alpha") rfl rfl rfl rfl rfl

/-- C9 counterexample: copying `/r/notes.md` over the existing directory
`/r/sub` succeeds (the file lands at `/r/sub/notes.md`), but reading the
destination path `/r/sub` afterwards fails because it is a directory, while
reading the source yields its content — so the round-trip does not hold for
every destination path inside Root. -/
theorem C9_copy_file_roundtrip_counterexample :
    (copy_file rootC fsTreeC ⟨false, ["notes.md"]⟩ ⟨false, ["sub"]⟩ true).2 =
      Except.ok ("Copied " ++ pathStr ["r", "notes.md"] ++ " -> " ++ pathStr ["r", "sub"])
    ∧ read_file rootC (copy_file rootC fsTreeC ⟨false, ["notes.md"]⟩
        ⟨false, ["sub"]⟩ true).1 ⟨false, ["sub"]⟩ =
      Except.error ("File not found: " ++ pathStr ["r", "sub"])
    ∧ read_file rootC fsTreeC ⟨false, ["notes.md"]⟩ = Except.ok "see alpha" :=
  ⟨rfl, rfl, rfl⟩

/-- C3: the dispatcher always returns a plain string: a descriptor whose name
is outside the fixed catalog yields the `"Unsupported action"` summary with
the state unchanged; any error raised by an invoked operation — including the
`TypeError` of a missing required argument — is caught and converted into an
`"Execution error: ..."` summary instead of propagating. -/
theorem C3_nl_command_dispatch (root : AbsPath) (fs : FS) (action : String)
    (args : Args) :
    (action ∉ catalog →
      nl_command root fs action args = (fs, "Unsupported action: " ++ action))
    ∧ (∀ fs1 e, runAction root fs action args = some (fs1, Except.error e) →
        nl_command root fs action args = (fs1, "Execution error: " ++ e))
    ∧ (∀ fs1 r, runAction root fs action args = some (fs1, Except.ok r) →
        nl_command root fs action args = (fs1, summarize args r))
    ∧ (action = "read_file" → args.path = none →
        nl_command root fs action args =
          (fs, "Execution error: " ++ missingArg "read_file" "path")) := by
  have hnone : action ∉ catalog → runAction root fs action args = none := by
    intro h
    simp only [catalog, List.mem_cons, List.not_mem_nil, or_false, not_or] at h
    unfold runAction
    rw [if_neg h.1, if_neg h.2.1, if_neg h.2.2.1, if_neg h.2.2.2.1,
      if_neg h.2.2.2.2.1, if_neg h.2.2.2.2.2.1, if_neg h.2.2.2.2.2.2.1,
      if_neg h.2.2.2.2.2.2.2.1, if_neg h.2.2.2.2.2.2.2.2.1,
      if_neg h.2.2.2.2.2.2.2.2.2]
  refine ⟨?_, ?_, ?_, ?_⟩
  · intro h
    unfold nl_command
    rw [hnone h]
  · intro fs1 e h
    unfold nl_command
    rw [h]
  · intro fs1 r h
    unfold nl_command
    rw [h]
  · intro ha hp
    subst ha
    have hrun : runAction root fs "read_file" args =
        some (fs, Except.error (missingArg "read_file" "path")) := by
      unfold runAction
      rw [if_neg (by decide), if_pos rfl, hp]
    unfold nl_command
    rw [hrun]

theorem C3_nl_command_dispatch_witness :
    nl_command rootC fsTreeC "frobnicate" noArgs =
      (fsTreeC, "Unsupported action: " ++ "frobnicate") :=
  (C3_nl_command_dispatch rootC fsTreeC "frobnicate" noArgs).1 (by decide)

end FsServer
